import Mathlib

/-!
Verification of the mlflow front-end view-state core: the request-outcome
aggregator (`shouldRender404` from `common/utils.js`), the persisted-state
schemas (`MlflowLocalStorageMessages.js`) together with the storage codec,
and the column bagging (split/merge) model.
-/

namespace Mlflow

/-! ## Request-outcome aggregator (src/mlflow/server/js/src/common/utils.js) -/

/-- The designated error classification (`ErrorCodes.RESOURCE_DOES_NOT_EXIST`). -/
def RESOURCE_DOES_NOT_EXIST : String := "RESOURCE_DOES_NOT_EXIST"

/-- An error object attached to a request; `errorCode` models `getErrorCode()`. -/
structure ErrorInfo where
  errorCode : String
  deriving DecidableEq, Repr

/-- A request descriptor as read by `shouldRender404`: an identifier and an
optional error object (`error` is `none` when the JS field is absent/falsy,
covering pending and successful requests). -/
structure RequestInfo where
  id : String
  error : Option ErrorInfo
  deriving DecidableEq, Repr

/-- Embedding of `shouldRender404` from `common/utils.js`: filter the requests
to those whose id is in `requestIdsToCheck`, then test whether some filtered
request has an error whose code is `RESOURCE_DOES_NOT_EXIST`.  The `match` on
`error` models the JS truthiness guard `error && error.getErrorCode() === ...`. -/
def shouldRender404 (requests : List RequestInfo) (requestIdsToCheck : List String) : Bool :=
  let requestsToCheck := requests.filter (fun request => requestIdsToCheck.contains request.id)
  requestsToCheck.any (fun request =>
    match request.error with
    | some error => error.errorCode == RESOURCE_DOES_NOT_EXIST
    | none => false)

/-! ### Heap model of the aggregator call, for the frame property.
JS objects live in a heap addressed by natural numbers; `Array.prototype.filter`
allocates a fresh array and `Array.prototype.some` only reads, so the call can
only extend the heap, never overwrite an existing cell. -/

/-- A JS object reachable during a `shouldRender404` call: an array of object
references (the `requests` array and the array `filter` allocates), an array of
strings (the `requestIdsToCheck` array), a request object, or an error object. -/
inductive JsObj where
  | refArr (elems : List Nat)
  | strArr (elems : List String)
  | reqObj (id : String) (error : Option Nat)
  | errObj (code : String)
  deriving DecidableEq, Repr

/-- A heap of JS objects; the address of a cell is its index, allocation appends. -/
abbrev Heap := List JsObj

/-- Read the heap cell at address `r`. -/
def heapGet (h : Heap) (r : Nat) : Option JsObj := h[r]?

/-- The filter predicate of `shouldRender404`, reading a request object from
the heap: does its `id` belong to `ids`? -/
def reqMatchesId (h : Heap) (ids : List String) (r : Nat) : Bool :=
  match heapGet h r with
  | some (.reqObj id _) => ids.contains id
  | _ => false

/-- The `some` predicate of `shouldRender404`, reading from the heap: does the
request at `r` carry an error object classified `RESOURCE_DOES_NOT_EXIST`? -/
def reqIs404 (h : Heap) (r : Nat) : Bool :=
  match heapGet h r with
  | some (.reqObj _ (some eref)) =>
    match heapGet h eref with
    | some (.errObj code) => code == RESOURCE_DOES_NOT_EXIST
    | _ => false
  | _ => false

/-- `shouldRender404` run against the heap: looks up the two argument arrays,
filters (allocating the fresh array `filter` returns), then tests the filtered
requests.  Returns the boolean result together with the heap after the call. -/
def shouldRender404Heap (h : Heap) (requestsRef idsRef : Nat) : Bool × Heap :=
  match heapGet h requestsRef, heapGet h idsRef with
  | some (.refArr requests), some (.strArr idsToCheck) =>
    let requestsToCheck := requests.filter (reqMatchesId h idsToCheck)
    let h2 := h ++ [JsObj.refArr requestsToCheck]
    (requestsToCheck.any (reqIs404 h2), h2)
  | _, _ => (false, h)

/-! ## Persisted-state schemas (src/mlflow/server/js/src/sdk/MlflowLocalStorageMessages.js) -/

/-- A JSON-like value as stored in local storage. -/
inductive JsValue where
  | jnull
  | jbool (b : Bool)
  | jnum (n : Int)
  | jstr (s : String)
  | jarr (elems : List JsValue)
  | jobj (fields : List (String × JsValue))

/-- A record of named fields: a schema (field names with default values),
a persisted state, or a parsed payload. -/
abbrev FieldMap := List (String × JsValue)

/-- The `ExperimentPagePersistedState` record declaration: field names and
defaults exactly as in `MlflowLocalStorageMessages.js`. -/
def ExperimentPagePersistedState : FieldMap :=
  [("paramKeyFilterString", .jstr ""),
   ("metricKeyFilterString", .jstr ""),
   ("searchInput", .jstr ""),
   ("orderByKey", .jnull),
   ("orderByAsc", .jbool false)]

/-- The `ExperimentViewPersistedState` record declaration: field names and
defaults exactly as in `MlflowLocalStorageMessages.js`. -/
def ExperimentViewPersistedState : FieldMap :=
  [("runsHiddenByExpander", .jobj []),
   ("runsExpanded", .jobj []),
   ("unbaggedMetrics", .jarr []),
   ("unbaggedParams", .jarr [])]

/-- The page kinds whose state is persisted. -/
inductive PageKind where
  | experimentPage
  | experimentView
  deriving DecidableEq, Repr

/-- The schema (default record) of each page kind. -/
def schemaOf : PageKind → FieldMap
  | .experimentPage => ExperimentPagePersistedState
  | .experimentView => ExperimentViewPersistedState

/-- What the durable store holds under a page key: nothing, a string that does
not parse, or a parsed record of fields. -/
inductive StoredValue where
  | absent
  | unparseable (raw : String)
  | parsed (fields : FieldMap)

/-- Modelled from the spec: construction of a persisted record from a parsed
payload (the `Immutable.Record` constructor used by the storage codec, which is
not part of this excerpt).  Every declared field takes the payload's value when
the payload has that field and the schema default otherwise; payload fields not
declared in the schema are dropped. -/
def decodeFields : FieldMap → FieldMap → FieldMap
  | [], _ => []
  | f :: rest, payload => (f.1, (payload.lookup f.1).getD f.2) :: decodeFields rest payload

/-- Modelled from the spec: decoding one stored value against a schema.
An absent or unparseable payload yields the schema default record unchanged;
a parsed payload is merged over the defaults field by field. -/
def decodeStored (schema : FieldMap) : StoredValue → FieldMap
  | .parsed payload => decodeFields schema payload
  | _ => schema

/-- A storage key: page kind plus context key. -/
abbrev StoreKey := PageKind × String

/-- The durable key-value store, most recent write first. -/
abbrev Store := List (StoreKey × StoredValue)

/-- Modelled from the spec: `encode(pageKind, contextKey, state)` serializes
the state and writes it under the key, overwriting any prior value (the new
entry shadows older ones); serializing then parsing a record reproduces its
fields. -/
def encode (store : Store) (pageKind : PageKind) (contextKey : String)
    (state : FieldMap) : Store :=
  ((pageKind, contextKey), .parsed state) :: store

/-- Modelled from the spec: `decode(pageKind, contextKey)` reads the stored
value for the key (absent when the key was never written) and decodes it
against the page kind's schema. -/
def decode (store : Store) (pageKind : PageKind) (contextKey : String) : FieldMap :=
  decodeStored (schemaOf pageKind) ((store.lookup (pageKind, contextKey)).getD .absent)

/-! ## Column bagging model (split / merge of unbagged columns) -/

/-- The two column kinds kept by `ExperimentViewPersistedState`. -/
inductive ColumnKind where
  | metric
  | param
  deriving DecidableEq, Repr

/-- The ordered unbagged column keys of `ExperimentViewPersistedState`:
`unbaggedMetrics` and `unbaggedParams`. -/
structure BaggedColumnSet where
  unbaggedMetrics : List String
  unbaggedParams : List String
  deriving DecidableEq, Repr

/-- The ordered sequence for a column kind. -/
def cols (s : BaggedColumnSet) : ColumnKind → List String
  | .metric => s.unbaggedMetrics
  | .param => s.unbaggedParams

/-- Replace the ordered sequence for a column kind. -/
def setCols (s : BaggedColumnSet) : ColumnKind → List String → BaggedColumnSet
  | .metric, l => ⟨l, s.unbaggedParams⟩
  | .param, l => ⟨s.unbaggedMetrics, l⟩

/-- Modelled from the spec: splitting a key out appends it at the end of the
ordered sequence if not already present; no-op if already present. -/
def splitList (l : List String) (key : String) : List String :=
  if key ∈ l then l else l ++ [key]

/-- Modelled from the spec: merging a key back removes it from the ordered
sequence, closing the gap; no-op if absent. -/
def mergeList (l : List String) (key : String) : List String :=
  l.filter (fun a => a != key)

/-- Modelled from the spec: `split(state, columnKind, key)`. -/
def split (s : BaggedColumnSet) (kind : ColumnKind) (key : String) : BaggedColumnSet :=
  setCols s kind (splitList (cols s kind) key)

/-- Modelled from the spec: `merge(state, columnKind, key)`. -/
def merge (s : BaggedColumnSet) (kind : ColumnKind) (key : String) : BaggedColumnSet :=
  setCols s kind (mergeList (cols s kind) key)

/-- One split or merge operation. -/
inductive ColOp where
  | splitOp (kind : ColumnKind) (key : String)
  | mergeOp (kind : ColumnKind) (key : String)
  deriving DecidableEq, Repr

/-- The column kind an operation targets. -/
def ColOp.kind : ColOp → ColumnKind
  | .splitOp k _ => k
  | .mergeOp k _ => k

/-- The key an operation inserts or removes. -/
def ColOp.key : ColOp → String
  | .splitOp _ k => k
  | .mergeOp _ k => k

/-- Apply one operation to a state. -/
def applyOp (s : BaggedColumnSet) : ColOp → BaggedColumnSet
  | .splitOp kind key => split s kind key
  | .mergeOp kind key => merge s kind key

/-- Apply a finite sequence of operations, left to right. -/
def applyOps (s : BaggedColumnSet) (ops : List ColOp) : BaggedColumnSet :=
  ops.foldl applyOp s

/-! ## Theorems: request-outcome aggregator -/

/-- Characterisation of `shouldRender404`: it returns `true` exactly when some
request with an interesting id carries a `RESOURCE_DOES_NOT_EXIST` error. -/
theorem shouldRender404_eq_true_iff (requests : List RequestInfo) (ids : List String) :
    shouldRender404 requests ids = true ↔
      ∃ r ∈ requests, r.id ∈ ids ∧
        ∃ e, r.error = some e ∧ e.errorCode = RESOURCE_DOES_NOT_EXIST := by
  simp only [shouldRender404, List.any_eq_true, List.mem_filter]
  constructor
  · rintro ⟨r, ⟨hr, hid⟩, hp⟩
    refine ⟨r, hr, List.elem_iff.mp hid, ?_⟩
    cases herr : r.error with
    | none => rw [herr] at hp; cases hp
    | some e =>
      rw [herr] at hp
      exact ⟨e, rfl, beq_iff_eq.mp hp⟩
  · rintro ⟨r, hr, hid, e, herr, hcode⟩
    exact ⟨r, ⟨hr, List.elem_iff.mpr hid⟩, by rw [herr]; exact beq_iff_eq.mpr hcode⟩

/-- Claim C1: `shouldRender404 requests interestingIds` is true iff at least one
request whose identifier is in `interestingIds` has an error classified
`RESOURCE_DOES_NOT_EXIST`; any request without such an error never contributes,
and the empty request list always yields false. -/
theorem shouldRender404_spec (requests : List RequestInfo) (interestingIds : List String) :
    (shouldRender404 requests interestingIds = true ↔
      ∃ r ∈ requests, r.id ∈ interestingIds ∧
        ∃ e, r.error = some e ∧ e.errorCode = RESOURCE_DOES_NOT_EXIST) ∧
    shouldRender404 [] interestingIds = false :=
  ⟨shouldRender404_eq_true_iff requests interestingIds, rfl⟩

/-- Claim C9: `shouldRender404` is monotone in the set of interesting
identifiers, and its result depends only on the membership of the second
argument, not on order or multiplicity. -/
theorem shouldRender404_monotone (requests : List RequestInfo) (A B : List String)
    (hAB : ∀ x ∈ A, x ∈ B) :
    (shouldRender404 requests A = true → shouldRender404 requests B = true) ∧
    ((∀ x ∈ B, x ∈ A) → shouldRender404 requests A = shouldRender404 requests B) := by
  constructor
  · intro h
    rcases (shouldRender404_eq_true_iff requests A).mp h with ⟨r, hr, hid, he⟩
    exact (shouldRender404_eq_true_iff requests B).mpr ⟨r, hr, hAB _ hid, he⟩
  · intro hBA
    have hiff : shouldRender404 requests A = true ↔ shouldRender404 requests B = true := by
      rw [shouldRender404_eq_true_iff, shouldRender404_eq_true_iff]
      constructor
      · rintro ⟨r, hr, hid, he⟩; exact ⟨r, hr, hAB _ hid, he⟩
      · rintro ⟨r, hr, hid, he⟩; exact ⟨r, hr, hBA _ hid, he⟩
    cases hA : shouldRender404 requests A <;> cases hB : shouldRender404 requests B <;>
      simp_all

/-- Witness for claim C9 at a concrete input. -/
theorem shouldRender404_monotone_witness :
    shouldRender404 [⟨"a", none⟩, ⟨"b", some ⟨"RESOURCE_DOES_NOT_EXIST"⟩⟩] ["a", "b"] = true :=
  (shouldRender404_monotone [⟨"a", none⟩, ⟨"b", some ⟨"RESOURCE_DOES_NOT_EXIST"⟩⟩]
    ["b"] ["a", "b"] (by decide)).1 (by rfl)

/-- Claim C10: a request whose `error` field is absent never counts toward a
true result, even when its identifier is in the checked set: deleting it from
the request list does not change the aggregation.  (Evaluation is total: the
embedding reads the classification only under the `some` guard, mirroring the
JS truthiness guard `error && error.getErrorCode()`.) -/
theorem shouldRender404_skips_errorless (requests1 requests2 : List RequestInfo)
    (r : RequestInfo) (ids : List String) (hr : r.error = none) :
    shouldRender404 (requests1 ++ r :: requests2) ids
      = shouldRender404 (requests1 ++ requests2) ids := by
  simp only [shouldRender404, List.filter_append, List.filter_cons, List.any_append]
  cases hc : ids.contains r.id <;> simp [hc, hr]

/-- Witness for claim C10 at a concrete input. -/
theorem shouldRender404_skips_errorless_witness :
    shouldRender404 ([] ++ ⟨"a", none⟩ :: []) ["a"] = shouldRender404 ([] ++ []) ["a"] :=
  shouldRender404_skips_errorless [] [] ⟨"a", none⟩ ["a"] rfl

/-- Claim C8: evaluating `shouldRender404` leaves its inputs unchanged.  In the
heap model the call only appends the array allocated by `filter`: every heap
cell that existed before the call — the requests array, every request
descriptor, every error object and the identifier array — is unchanged after
the call. -/
theorem shouldRender404Heap_frame (h : Heap) (requestsRef idsRef : Nat) (a : Nat)
    (ha : a < h.length) :
    heapGet (shouldRender404Heap h requestsRef idsRef).2 a = heapGet h a := by
  unfold shouldRender404Heap
  split
  · simp only [heapGet]
    exact List.getElem?_append_left ha
  · rfl

/-- Witness for claim C8 at a concrete input. -/
theorem shouldRender404Heap_frame_witness :
    heapGet (shouldRender404Heap
      [JsObj.strArr ["a"], JsObj.reqObj "a" none, JsObj.refArr [1]] 2 0).2 1
      = heapGet [JsObj.strArr ["a"], JsObj.reqObj "a" none, JsObj.refArr [1]] 1 :=
  shouldRender404Heap_frame [JsObj.strArr ["a"], JsObj.reqObj "a" none, JsObj.refArr [1]]
    2 0 1 (by decide)

/-! ## Theorems: storage codec -/

/-- Decoding preserves the schema's field names, in order. -/
theorem decodeFields_fst (schema payload : FieldMap) :
    (decodeFields schema payload).map Prod.fst = schema.map Prod.fst := by
  induction schema with
  | nil => rfl
  | cons f rest ih => simp [decodeFields, ih]

/-- `decodeStored` preserves the schema's field names for every stored value. -/
theorem decodeStored_fst (schema : FieldMap) (sv : StoredValue) :
    (decodeStored schema sv).map Prod.fst = schema.map Prod.fst := by
  cases sv with
  | parsed payload => exact decodeFields_fst schema payload
  | absent => rfl
  | unparseable raw => rfl

/-- Looking up a name that is not among a record's field names yields nothing. -/
theorem lookup_eq_none_of_not_mem_keys (l : FieldMap) (name : String)
    (h : name ∉ l.map Prod.fst) : l.lookup name = none := by
  induction l with
  | nil => rfl
  | cons f rest ih =>
    obtain ⟨k, v⟩ := f
    simp only [List.map_cons, List.mem_cons] at h
    push_neg at h
    have hk : (name == k) = false := beq_eq_false_iff_ne.mpr h.1
    simp [List.lookup_cons, hk, ih h.2]

/-- Every field of a decoded record is either a schema default or a value taken
from the payload. -/
theorem mem_decodeFields (schema payload : FieldMap) (f : String × JsValue)
    (hf : f ∈ decodeFields schema payload) :
    f ∈ schema ∨ payload.lookup f.1 = some f.2 := by
  induction schema with
  | nil => cases hf
  | cons g rest ih =>
    rw [decodeFields] at hf
    rcases List.mem_cons.mp hf with heq | hmem
    · cases hl : payload.lookup g.1 with
      | none =>
        left
        rw [heq]
        simp only [hl, Option.getD_none]
        exact List.mem_cons_self _ _
      | some v =>
        right
        rw [heq]
        simp only [hl, Option.getD_some]
    · rcases ih hmem with h | h
      · exact Or.inl (List.mem_cons_of_mem _ h)
      · exact Or.inr h

/-- Looking up a declared field in the decoded record gives the payload's value
when present and the schema default otherwise. -/
theorem lookup_decodeFields (schema payload : FieldMap) (name : String) (dflt : JsValue)
    (hnd : (schema.map Prod.fst).Nodup) (hmem : (name, dflt) ∈ schema) :
    (decodeFields schema payload).lookup name = some ((payload.lookup name).getD dflt) := by
  induction schema with
  | nil => cases hmem
  | cons g rest ih =>
    obtain ⟨gn, gv⟩ := g
    simp only [List.map_cons, List.nodup_cons] at hnd
    rw [decodeFields]
    rcases List.mem_cons.mp hmem with heq | hmem'
    · cases heq
      simp [List.lookup_cons]
    · have hne : name ≠ gn := by
        intro hcon
        subst hcon
        exact hnd.1 (List.mem_map_of_mem Prod.fst hmem')
      have hb : (name == gn) = false := beq_eq_false_iff_ne.mpr hne
      simp only [List.lookup_cons, hb]
      exact ih hnd.2 hmem'

/-- Both concrete schemas have pairwise distinct field names. -/
theorem schemaOf_nodup (pk : PageKind) : ((schemaOf pk).map Prod.fst).Nodup := by
  cases pk <;> decide

/-- A payload field whose name is not declared in the schema does not affect
decoding. -/
theorem decodeFields_cons_of_not_mem (schema : FieldMap) (n : String) (v : JsValue)
    (payload : FieldMap) (hn : n ∉ schema.map Prod.fst) :
    decodeFields schema ((n, v) :: payload) = decodeFields schema payload := by
  induction schema with
  | nil => rfl
  | cons g rest ih =>
    simp only [List.map_cons, List.mem_cons] at hn
    push_neg at hn
    have hb : (g.1 == n) = false := beq_eq_false_iff_ne.mpr (Ne.symm hn.1)
    rw [decodeFields, decodeFields]
    simp only [List.lookup_cons, hb]
    rw [ih hn.2]

/-- Decoding a record that already has exactly the schema's field names, in
order, reproduces it. -/
theorem decodeFields_self (schema state : FieldMap)
    (hnd : (schema.map Prod.fst).Nodup) (h : state.map Prod.fst = schema.map Prod.fst) :
    decodeFields schema state = state := by
  induction schema generalizing state with
  | nil =>
    simp only [List.map_nil, List.map_eq_nil_iff] at h
    subst h
    rfl
  | cons g rest ih =>
    obtain ⟨gn, gv⟩ := g
    cases state with
    | nil => cases h
    | cons s srest =>
      obtain ⟨sn, sv⟩ := s
      simp only [List.map_cons, List.cons.injEq] at h
      obtain ⟨hn, hrest⟩ := h
      subst hn
      simp only [List.map_cons, List.nodup_cons] at hnd
      rw [decodeFields]
      have hhead : (((sn, sv) :: srest).lookup sn) = some sv := by
        simp [List.lookup_cons]
      rw [hhead]
      have htail : decodeFields rest ((sn, sv) :: srest) = decodeFields rest srest :=
        decodeFields_cons_of_not_mem rest sn sv srest hnd.1
      rw [htail, ih srest hnd.2 hrest]
      rfl

/-- Claim C2: decoding is total — for every store and key it returns a record
with exactly the current schema's fields (a valid `PersistedState`), every
field holding either its schema default or the value found in the stored
payload; an absent entry and an unparseable entry both yield the full default
record. -/
theorem decode_total (store : Store) (pk : PageKind) (ck : String) :
    (decode store pk ck).map Prod.fst = (schemaOf pk).map Prod.fst ∧
    (∀ f ∈ decode store pk ck,
      f ∈ schemaOf pk ∨
        ∃ payload, store.lookup (pk, ck) = some (StoredValue.parsed payload) ∧
          payload.lookup f.1 = some f.2) ∧
    decode [] pk ck = schemaOf pk ∧
    (∀ raw, decode [((pk, ck), StoredValue.unparseable raw)] pk ck = schemaOf pk) := by
  refine ⟨decodeStored_fst _ _, ?_, rfl, ?_⟩
  · intro f hf
    rw [decode] at hf
    cases hst : store.lookup (pk, ck) with
    | none =>
      rw [hst] at hf
      exact Or.inl hf
    | some sv =>
      rw [hst] at hf
      cases sv with
      | absent => exact Or.inl hf
      | unparseable raw => exact Or.inl hf
      | parsed payload =>
        rcases mem_decodeFields _ _ _ hf with h | h
        · exact Or.inl h
        · exact Or.inr ⟨payload, rfl, h⟩
  · intro raw
    simp [decode, decodeStored, List.lookup_cons]

/-- Witness for claim C2 at a concrete input. -/
theorem decode_total_witness :
    ("orderByAsc", JsValue.jbool true) ∈ schemaOf PageKind.experimentPage ∨
      ∃ payload,
        ([((PageKind.experimentPage, "e"),
            StoredValue.parsed [("orderByAsc", JsValue.jbool true)])] : Store).lookup
          (PageKind.experimentPage, "e") = some (StoredValue.parsed payload) ∧
        payload.lookup "orderByAsc" = some (JsValue.jbool true) :=
  (decode_total
    [((PageKind.experimentPage, "e"), StoredValue.parsed [("orderByAsc", JsValue.jbool true)])]
    PageKind.experimentPage "e").2.1 ("orderByAsc", JsValue.jbool true)
    (List.Mem.tail _ (List.Mem.tail _ (List.Mem.tail _ (List.Mem.tail _ (List.Mem.head _)))))

/-- Claim C3: decode after encode reproduces any state whose field names match
the schema of the page kind (round-trip law under an unchanged schema). -/
theorem encode_decode_roundtrip (store : Store) (pk : PageKind) (ck : String)
    (state : FieldMap) (hstate : state.map Prod.fst = (schemaOf pk).map Prod.fst) :
    decode (encode store pk ck state) pk ck = state := by
  have hlook : (encode store pk ck state).lookup (pk, ck)
      = some (StoredValue.parsed state) := by
    simp [encode, List.lookup_cons]
  rw [decode, hlook]
  exact decodeFields_self _ _ (schemaOf_nodup pk) hstate

/-- Witness for claim C3: the concrete scenario with
orderByKey set to params.\x60alpha\x60 and orderByAsc set to true, all other
fields at their defaults, survives an encode/decode round trip. -/
theorem encode_decode_roundtrip_witness :
    decode (encode [] PageKind.experimentPage "exp"
        [("paramKeyFilterString", JsValue.jstr ""),
         ("metricKeyFilterString", JsValue.jstr ""),
         ("searchInput", JsValue.jstr ""),
         ("orderByKey", JsValue.jstr "params.`alpha`"),
         ("orderByAsc", JsValue.jbool true)]) PageKind.experimentPage "exp"
      = [("paramKeyFilterString", JsValue.jstr ""),
         ("metricKeyFilterString", JsValue.jstr ""),
         ("searchInput", JsValue.jstr ""),
         ("orderByKey", JsValue.jstr "params.`alpha`"),
         ("orderByAsc", JsValue.jbool true)] :=
  encode_decode_roundtrip [] PageKind.experimentPage "exp"
    [("paramKeyFilterString", JsValue.jstr ""),
     ("metricKeyFilterString", JsValue.jstr ""),
     ("searchInput", JsValue.jstr ""),
     ("orderByKey", JsValue.jstr "params.`alpha`"),
     ("orderByAsc", JsValue.jbool true)] (by rfl)

/-- Claim C5: a declared field missing from the stored payload decodes to its
schema default (never an absent value), and a declared field present in the
payload decodes to the payload's value. -/
theorem decode_field_semantics (pk : PageKind) (payload : FieldMap)
    (name : String) (dflt : JsValue) (hmem : (name, dflt) ∈ schemaOf pk) :
    (decodeStored (schemaOf pk) (StoredValue.parsed payload)).lookup name
      = some ((payload.lookup name).getD dflt) :=
  lookup_decodeFields _ _ _ _ (schemaOf_nodup pk) hmem

/-- Witness for claim C5 at a concrete input: a payload missing `orderByAsc`
decodes that field to its default `false`. -/
theorem decode_field_semantics_witness :
    (decodeStored (schemaOf PageKind.experimentPage)
        (StoredValue.parsed [("searchInput", JsValue.jstr "x")])).lookup "orderByAsc"
      = some (JsValue.jbool false) :=
  decode_field_semantics PageKind.experimentPage [("searchInput", JsValue.jstr "x")]
    "orderByAsc" (JsValue.jbool false)
    (List.Mem.tail _ (List.Mem.tail _ (List.Mem.tail _ (List.Mem.tail _ (List.Mem.head _)))))

/-- Claim C6: decoding always succeeds, and a payload field whose name is not
declared in the current schema leaves no trace in the decoded record. -/
theorem decode_drops_unknown (pk : PageKind) (payload : FieldMap) (name : String)
    (hname : name ∉ (schemaOf pk).map Prod.fst) :
    (decodeStored (schemaOf pk) (StoredValue.parsed payload)).lookup name = none := by
  apply lookup_eq_none_of_not_mem_keys
  rw [decodeStored, decodeFields_fst]
  exact hname

/-- Witness for claim C6 at a concrete input: a stored legacy field vanishes. -/
theorem decode_drops_unknown_witness :
    (decodeStored (schemaOf PageKind.experimentPage)
        (StoredValue.parsed [("legacyField", JsValue.jstr "old")])).lookup "legacyField"
      = none :=
  decode_drops_unknown PageKind.experimentPage [("legacyField", JsValue.jstr "old")]
    "legacyField" (by decide)

/-! ## Theorems: column bagging model -/

/-- Reading back the sequence just written for a column kind. -/
theorem cols_setCols_same (s : BaggedColumnSet) (kind : ColumnKind) (l : List String) :
    cols (setCols s kind l) kind = l := by
  cases kind <;> rfl

/-- Writing one column kind leaves the other kind's sequence unchanged. -/
theorem cols_setCols_other (s : BaggedColumnSet) (k1 k2 : ColumnKind) (l : List String)
    (h : k1 ≠ k2) : cols (setCols s k1 l) k2 = cols s k2 := by
  cases k1 <;> cases k2 <;> first | rfl | exact absurd rfl h

/-- Two consecutive writes to the same column kind keep only the second. -/
theorem setCols_setCols (s : BaggedColumnSet) (kind : ColumnKind) (l1 l2 : List String) :
    setCols (setCols s kind l1) kind l2 = setCols s kind l2 := by
  cases kind <;> rfl

/-- The split-out key is present after a split. -/
theorem mem_splitList (l : List String) (key : String) : key ∈ splitList l key := by
  rw [splitList]
  by_cases h : key ∈ l
  · rw [if_pos h]; exact h
  · rw [if_neg h]; exact List.mem_append_right _ (List.mem_singleton.mpr rfl)

/-- Splitting out a key that is already present is a no-op. -/
theorem splitList_eq_of_mem (l : List String) (key : String) (h : key ∈ l) :
    splitList l key = l := if_pos h

/-- Splitting out an absent key appends it at the end. -/
theorem splitList_not_mem (l : List String) (key : String) (h : key ∉ l) :
    splitList l key = l ++ [key] := if_neg h

/-- `splitList` is idempotent. -/
theorem splitList_idem (l : List String) (key : String) :
    splitList (splitList l key) key = splitList l key :=
  splitList_eq_of_mem _ _ (mem_splitList l key)

/-- The column sequence after a split. -/
theorem cols_split (s : BaggedColumnSet) (kind : ColumnKind) (key : String) :
    cols (split s kind key) kind = splitList (cols s kind) key := by
  simp only [split]
  rw [cols_setCols_same]

/-- The column sequence after a merge. -/
theorem cols_merge (s : BaggedColumnSet) (kind : ColumnKind) (key : String) :
    cols (merge s kind key) kind = mergeList (cols s kind) key := by
  simp only [merge]
  rw [cols_setCols_same]

/-- Claim C7: `split` is idempotent — splitting a key that is already present
is a no-op, so applying `split` twice equals applying it once. -/
theorem split_idempotent (s : BaggedColumnSet) (kind : ColumnKind) (key : String) :
    split (split s kind key) kind key = split s kind key := by
  simp only [split]
  rw [cols_setCols_same, splitList_idem, setCols_setCols]

/-- A split of a key on which a predicate fails does not change the filtered
sequence. -/
theorem filter_splitList (p : String → Bool) (l : List String) (key : String)
    (hp : p key = false) : (splitList l key).filter p = l.filter p := by
  rw [splitList]
  by_cases h : key ∈ l
  · rw [if_pos h]
  · rw [if_neg h, List.filter_append]
    simp [List.filter_cons, hp]

/-- A merge of a key on which a predicate fails does not change the filtered
sequence. -/
theorem filter_mergeList (p : String → Bool) (l : List String) (key : String)
    (hp : p key = false) : (mergeList l key).filter p = l.filter p := by
  rw [mergeList, List.filter_filter]
  congr 1
  funext a
  by_cases ha : a = key
  · subst ha
    simp [hp]
  · simp [bne_iff_ne, ha]

/-- One operation does not change the part of any column sequence selected by a
predicate failing on the operation's key. -/
theorem cols_applyOp_filter (p : String → Bool) (s : BaggedColumnSet) (op : ColOp)
    (kind : ColumnKind) (hk : op.kind = kind → p op.key = false) :
    (cols (applyOp s op) kind).filter p = (cols s kind).filter p := by
  cases op with
  | splitOp k key =>
    by_cases hkk : k = kind
    · subst hkk
      simp only [applyOp, split]
      rw [cols_setCols_same]
      exact filter_splitList p _ key (hk rfl)
    · simp only [applyOp, split]
      rw [cols_setCols_other _ _ _ _ hkk]
  | mergeOp k key =>
    by_cases hkk : k = kind
    · subst hkk
      simp only [applyOp, merge]
      rw [cols_setCols_same]
      exact filter_mergeList p _ key (hk rfl)
    · simp only [applyOp, merge]
      rw [cols_setCols_other _ _ _ _ hkk]

/-- A sequence of operations does not change the part of any column sequence
selected by a predicate failing on every operated key. -/
theorem cols_applyOps_filter (p : String → Bool) :
    ∀ (ops : List ColOp) (s : BaggedColumnSet) (kind : ColumnKind),
      (∀ op ∈ ops, op.kind = kind → p op.key = false) →
      (cols (applyOps s ops) kind).filter p = (cols s kind).filter p
  | [], _, _, _ => rfl
  | op :: ops, s, kind, h => by
    rw [applyOps, List.foldl_cons]
    have h1 := cols_applyOps_filter p ops (applyOp s op) kind
      (fun o ho => h o (List.mem_cons_of_mem _ ho))
    rw [applyOps] at h1
    rw [h1]
    exact cols_applyOp_filter p s op kind (h op (List.mem_cons_self _ _))

/-- Claim C4 (amended): across any finite sequence of split/merge operations,
any two keys that are not the key argument of an operation targeting the
column kind keep their relative order (their filtered subsequence is
unchanged); a single split of an absent key appends it at the end without
reordering the others; a single merge removes its key closing the gap without
reordering the remainder; splitting distinct `k1, k2, k3` from the default
empty state yields `[k1, k2, k3]` and a subsequent merge of `k2` yields
`[k1, k3]`. -/
theorem splitMerge_order_stable :
    (∀ (s : BaggedColumnSet) (ops : List ColOp) (kind : ColumnKind) (x y : String),
      (∀ op ∈ ops, op.kind = kind → op.key ≠ x ∧ op.key ≠ y) →
      (cols (applyOps s ops) kind).filter (fun a => a == x || a == y)
        = (cols s kind).filter (fun a => a == x || a == y)) ∧
    (∀ (l : List String) (key : String), key ∉ l → splitList l key = l ++ [key]) ∧
    (∀ (l1 l2 : List String) (key : String), key ∉ l1 → key ∉ l2 →
      mergeList (l1 ++ key :: l2) key = l1 ++ l2) ∧
    (∀ (kind : ColumnKind) (k1 k2 k3 : String), k1 ≠ k2 → k1 ≠ k3 → k2 ≠ k3 →
      cols (split (split (split ⟨[], []⟩ kind k1) kind k2) kind k3) kind = [k1, k2, k3] ∧
      cols (merge (split (split (split ⟨[], []⟩ kind k1) kind k2) kind k3) kind k2) kind
        = [k1, k3]) := by
  refine ⟨?_, ?_, ?_, ?_⟩
  · intro s ops kind x y h
    apply cols_applyOps_filter
    intro op hop hkind
    obtain ⟨hx, hy⟩ := h op hop hkind
    simp [beq_eq_false_iff_ne, hx, hy]
  · exact fun l key h => splitList_not_mem l key h
  · intro l1 l2 key h1 h2
    rw [mergeList, List.filter_append, List.filter_cons]
    have hself : (key != key) = false := by simp
    rw [hself]
    have f1 : l1.filter (fun a => a != key) = l1 :=
      List.filter_eq_self.mpr (fun a ha => bne_iff_ne.mpr (ne_of_mem_of_not_mem ha h1))
    have f2 : l2.filter (fun a => a != key) = l2 :=
      List.filter_eq_self.mpr (fun a ha => bne_iff_ne.mpr (ne_of_mem_of_not_mem ha h2))
    rw [f1, f2]
    simp
  · intro kind k1 k2 k3 h12 h13 h23
    have hnil : cols (⟨[], []⟩ : BaggedColumnSet) kind = [] := by
      cases kind <;> rfl
    have e1 : cols (split (⟨[], []⟩ : BaggedColumnSet) kind k1) kind = [k1] := by
      rw [cols_split, hnil, splitList_not_mem _ _ (List.not_mem_nil k1)]
      rfl
    have e2 : cols (split (split (⟨[], []⟩ : BaggedColumnSet) kind k1) kind k2) kind
        = [k1, k2] := by
      rw [cols_split, e1, splitList_not_mem _ _ (by simp [Ne.symm h12])]
      rfl
    have e3 : cols (split (split (split (⟨[], []⟩ : BaggedColumnSet) kind k1) kind k2)
        kind k3) kind = [k1, k2, k3] := by
      rw [cols_split, e2, splitList_not_mem _ _ (by simp [Ne.symm h13, Ne.symm h23])]
      rfl
    refine ⟨e3, ?_⟩
    rw [cols_merge, e3]
    have b1 : (k1 != k2) = true := bne_iff_ne.mpr h12
    have b2 : (k2 != k2) = false := by simp
    have b3 : (k3 != k2) = true := bne_iff_ne.mpr (Ne.symm h23)
    simp [mergeList, List.filter_cons, b1, b2, b3]

/-- Counterexample to claim C4 as stated: starting from the state with
unbagged metrics `["a", "b"]`, the operation sequence `merge a; split a`
leaves both `"a"` and `"b"` present before and after, yet reverses their
relative order — the removed key is re-appended at the end. -/
theorem splitMerge_order_counterexample :
    cols (⟨["a", "b"], []⟩ : BaggedColumnSet) ColumnKind.metric = ["a", "b"] ∧
    cols (applyOps ⟨["a", "b"], []⟩
        [ColOp.mergeOp ColumnKind.metric "a", ColOp.splitOp ColumnKind.metric "a"])
      ColumnKind.metric = ["b", "a"] ∧
    List.indexOf "a" ["a", "b"] < List.indexOf "b" ["a", "b"] ∧
    List.indexOf "b" ["b", "a"] < List.indexOf "a" ["b", "a"] := by
  refine ⟨rfl, ?_, by decide, by decide⟩
  rfl

/-- Witness for claim C4 (amended) at concrete inputs, one conjunct each. -/
theorem splitMerge_order_stable_witness :
    (cols (applyOps ⟨["m"], []⟩ [ColOp.splitOp ColumnKind.metric "n"]) ColumnKind.metric).filter
        (fun a => a == "m" || a == "z")
      = (cols (⟨["m"], []⟩ : BaggedColumnSet) ColumnKind.metric).filter
        (fun a => a == "m" || a == "z") ∧
    splitList ["a"] "c" = ["a"] ++ ["c"] ∧
    mergeList (["a"] ++ "b" :: ["c"]) "b" = ["a"] ++ ["c"] ∧
    (cols (split (split (split ⟨[], []⟩ ColumnKind.metric "k1") ColumnKind.metric "k2")
        ColumnKind.metric "k3") ColumnKind.metric = ["k1", "k2", "k3"] ∧
      cols (merge (split (split (split ⟨[], []⟩ ColumnKind.metric "k1") ColumnKind.metric "k2")
        ColumnKind.metric "k3") ColumnKind.metric "k2") ColumnKind.metric = ["k1", "k3"]) :=
  ⟨splitMerge_order_stable.1 ⟨["m"], []⟩ [ColOp.splitOp ColumnKind.metric "n"]
      ColumnKind.metric "m" "z" (by decide),
   splitMerge_order_stable.2.1 ["a"] "c" (by decide),
   splitMerge_order_stable.2.2.1 ["a"] ["c"] "b" (by decide) (by decide),
   splitMerge_order_stable.2.2.2 ColumnKind.metric "k1" "k2" "k3"
     (by decide) (by decide) (by decide)⟩

end Mlflow
